import Mathlib

/-!
Verification of the stream-deletion script (`src/index.js`).

The ledger (`statuses` in the source) is a JavaScript object mapping a
stream identifier to a status string.  We embed it as an insertion-ordered
association list: assignment of an existing key overwrites in place,
assignment of a fresh key appends at the end, and `delete` removes the key,
matching JavaScript object semantics (keys of an object are unique, so the
ledgers the program builds always have pairwise-distinct keys).

Network calls are injected as oracles:
  - `query : String → Option Bool` models `timeseriesRequest`: `some a`
    means the request resolved with `active = a`, `none` means it rejected.
  - `del : String → Bool` models `deleteStreamRequest`: `true` means the
    request resolved, `false` means it rejected.
Concurrent `Promise.map` / `Promise.all` execution over distinct keys is
embedded as a sequential fold: sibling operations write disjoint keys, so
the resulting ledger does not depend on interleaving.
-/

set_option autoImplicit false

namespace StreamDeletion

/-- The `statuses` object of the source: stream id → status string, in
insertion order. -/
abbrev Ledger := List (String × String)

/-- Reading `statuses[id]`: value of the first (only) pair with key `id`. -/
def getStatus (st : Ledger) (id : String) : Option String :=
  (st.find? (fun p => p.1 == id)).map (fun p => p.2)

/-- Writing `statuses[id] = v`: overwrite in place when the key is present,
append at the end when it is fresh (JavaScript object assignment). -/
def setStatus : Ledger → String → String → Ledger
  | [], id, v => [(id, v)]
  | (k, w) :: rest, id, v =>
      if k == id then (k, v) :: rest else (k, w) :: setStatus rest id v

/-- Deletion `delete statuses[id]`: remove the pair with key `id`. -/
def delStatus : Ledger → String → Ledger
  | [], _ => []
  | (k, w) :: rest, id =>
      if k == id then delStatus rest id else (k, w) :: delStatus rest id

/-- Model of `Object.keys(statuses)`. -/
def keys (st : Ledger) : List String := st.map (fun p => p.1)

/-- The constant `BATCH_SIZE = 10` (src/index.js line 233). -/
def BATCH_SIZE : Nat := 10

/-- The recursive worker of `split` (src/index.js lines 234-247), with the
`curr` and `res` accumulator arguments explicit (the JavaScript defaults
`curr = 0`, `res = []` are supplied by `split` below).
`all.slice(curr, curr + BATCH_SIZE)` is `(all.drop curr).take BATCH_SIZE`. -/
def splitAux (all : List String) (curr : Nat) (res : List (List String)) :
    List (List String) :=
  if curr + BATCH_SIZE > all.length then
    -- line 241: batch size was bigger than the number of streams to start with
    if res.length = 0 then [all]
    -- line 242: stop and return the accumulated batches
    else res
  else
    splitAux all (curr + BATCH_SIZE) (res ++ [(all.drop curr).take BATCH_SIZE])
termination_by all.length - curr
decreasing_by simp [BATCH_SIZE] at *; omega

/-- Function `split(ids)` as called by the program (one argument, defaults filled). -/
def split (ids : List String) : List (List String) :=
  splitAux ids 0 []

/-- Function `filterBatch` (src/index.js lines 253-285).  `Promise.all(reqs)`
resolves iff every per-identifier `timeseriesRequest` resolves; in that
case `res` is the list of `{active, id}` records in batch order, the
non-active ids are written `"inactive"` and the active ids are deleted
from the ledger.  If any request rejects, the `catch` handler writes
`"unknown"` for every id of the batch (the per-identifier sub-requests
themselves never mutate `statuses`, so no partial result survives). -/
def filterBatch (query : String → Option Bool) (batch : List String)
    (statuses : Ledger) : Ledger :=
  if batch.all (fun id => (query id).isSome) then
    let res := batch.map (fun id => (id, (query id).getD false))
    let afterInactive :=
      (res.filter (fun p => !p.2)).foldl
        (fun st p => setStatus st p.1 "inactive") statuses
    (res.filter (fun p => p.2)).foldl
      (fun st p => delStatus st p.1) afterInactive
  else
    batch.foldl (fun st id => setStatus st id "unknown") statuses

/-- Function `batchCheckStreamStatuses` (src/index.js lines 100-111): split the ids
and run `filterBatch` over every batch (`Promise.map` with concurrency 8;
batches write disjoint keys, embedded as a left fold). -/
def batchCheckStreamStatuses (query : String → Option Bool)
    (ids : List String) (statuses : Ledger) : Ledger :=
  (split ids).foldl (fun st b => filterBatch query b st) statuses

/-- Function `deleteBatch` (src/index.js lines 287-306): one `deleteStreamRequest`
per id of the batch; each request that resolves runs its own `.then`
handler writing `"deleted"` for that id, and a rejected request leaves its
id untouched (the batch-level `catch` only logs).  The second component is
the list of delete requests issued: one per id of the batch,
unconditionally. -/
def deleteBatch (del : String → Bool) (batch : List String)
    (statuses : Ledger) : Ledger × List String :=
  (batch.foldl (fun st id => if del id then setStatus st id "deleted" else st)
    statuses, batch)

/-- Function `batchDeleteStreams` (src/index.js lines 113-124): split the ids and
run `deleteBatch` over every batch, accumulating the issued delete
requests. -/
def batchDeleteStreams (del : String → Bool) (ids : List String)
    (statuses : Ledger) : Ledger × List String :=
  (split ids).foldl
    (fun acc b =>
      let r := deleteBatch del b acc.1
      (r.1, acc.2 ++ r.2))
    (statuses, [])

/-- The candidate selection of `resume` (src/index.js lines 142-144):
`Object.keys(streamStatuses).filter(id => streamStatuses[id] === "unknown")`. -/
def streamIdsToBeChecked (st : Ledger) : List String :=
  (keys st).filter (fun id => getStatus st id == some "unknown")

/-- The act-phase selection of `deleteStreams` (src/index.js lines 196-198):
`Object.keys(streamStatuses).filter(id => streamStatuses[id] === "inactive")`. -/
def streamIdsToBeDeleted (st : Ledger) : List String :=
  (keys st).filter (fun id => getStatus st id == some "inactive")

/-- Function `deleteStreams` (src/index.js lines 188-201).  Under `--dry-run` it
only logs and returns the ledger unchanged, issuing no delete request;
otherwise it deletes the ids currently `"inactive"`.  The second component
is the list of delete requests issued. -/
def deleteStreams (dryRun : Bool) (del : String → Bool) (st : Ledger) :
    Ledger × List String :=
  if dryRun then (st, [])
  else batchDeleteStreams del (streamIdsToBeDeleted st) st

/-- Function `resume` (src/index.js lines 138-160), with the checkpoint ledger
passed in (`getStreamStatus`) and the two `storeStreamStatus` checkpoints
elided: they write the ledger to disk and pass it through unchanged.
Returns the final ledger and the list of delete requests issued. -/
def resume (query : String → Option Bool) (del : String → Bool)
    (dryRun : Bool) (checkpoint : Ledger) : Ledger × List String :=
  let st1 := batchCheckStreamStatuses query
    (streamIdsToBeChecked checkpoint) checkpoint
  deleteStreams dryRun del st1

/-- The three groups printed by `report` (src/index.js lines 162-186). -/
structure Report where
  unknown : List String
  inactive : List String
  deleted : List String
deriving Repr, DecidableEq

/-- Function `report` (src/index.js lines 162-186): iterate the ledger entries and
push each id into the group named by its status; a status matching none of
the three cases is pushed nowhere. -/
def report (st : Ledger) : Report :=
  st.foldl
    (fun acc p =>
      if p.2 == "unknown" then { acc with unknown := acc.unknown ++ [p.1] }
      else if p.2 == "inactive" then
        { acc with inactive := acc.inactive ++ [p.1] }
      else if p.2 == "deleted" then
        { acc with deleted := acc.deleted ++ [p.1] }
      else acc)
    ⟨[], [], []⟩

/-! ### Checkpoint persistence

`storeStreamStatus` (src/index.js lines 220-226) writes
`JSON.stringify(status)` to the fixed path `./streams-status.json`
(a full overwrite) and passes the ledger through; `getStreamStatus`
(lines 228-230) reads that file and applies `JSON.parse`.  The builtins
`JSON.stringify` / `JSON.parse` are modelled below for the checkpoint
format (a JSON object whose values are strings): `storeStreamStatus`
returns the exact file content produced, and `getStreamStatus` parses
such content, `none` meaning a `JSON.parse` exception.  String escaping
follows `JSON.stringify`: `\"`, `\\`, the control-character short
forms and `\u00XX` for the remaining control characters; the parser
also accepts the other JSON escapes (`\/`, `\uXXXX`). -/

def hexDigit (n : Nat) : Char :=
  if n < 10 then Char.ofNat (48 + n) else Char.ofNat (97 + (n - 10))

def escapeChar (c : Char) : List Char :=
  if c = '\"' then ['\\', '\"']
  else if c = '\\' then ['\\', '\\']
  else if c = '\n' then ['\\', 'n']
  else if c = '\t' then ['\\', 't']
  else if c = '\r' then ['\\', 'r']
  else if c.toNat = 8 then ['\\', 'b']
  else if c.toNat = 12 then ['\\', 'f']
  else if c.toNat < 32 then
    ['\\', 'u', '0', '0', hexDigit (c.toNat / 16), hexDigit (c.toNat % 16)]
  else [c]

def escapeString : List Char → List Char
  | [] => []
  | c :: cs => escapeChar c ++ escapeString cs

def memberEncode (p : String × String) : List Char :=
  '\"' :: escapeString p.1.data ++ '\"' :: ':' :: '\"' ::
    escapeString p.2.data ++ ['\"']

def joinMembers : List (List Char) → List Char
  | [] => []
  | [m] => m
  | m :: ms => m ++ ',' :: joinMembers ms

def storeStreamStatus (st : Ledger) : String :=
  ⟨'{' :: joinMembers (st.map memberEncode) ++ ['}']⟩

def hexVal (c : Char) : Option Nat :=
  if '0' ≤ c ∧ c ≤ '9' then some (c.toNat - 48)
  else if 'a' ≤ c ∧ c ≤ 'f' then some (c.toNat - 97 + 10)
  else if 'A' ≤ c ∧ c ≤ 'F' then some (c.toNat - 65 + 10)
  else none

def parseJsonString : List Char → Option (List Char × List Char)
  | [] => none
  | c :: cs =>
    if c = '\"' then some ([], cs)
    else if c = '\\' then
      match cs with
      | [] => none
      | e :: cs2 =>
        if e = '\"' then (parseJsonString cs2).map (fun r => ('\"' :: r.1, r.2))
        else if e = '\\' then
          (parseJsonString cs2).map (fun r => ('\\' :: r.1, r.2))
        else if e = '/' then
          (parseJsonString cs2).map (fun r => ('/' :: r.1, r.2))
        else if e = 'b' then
          (parseJsonString cs2).map (fun r => (Char.ofNat 8 :: r.1, r.2))
        else if e = 'f' then
          (parseJsonString cs2).map (fun r => (Char.ofNat 12 :: r.1, r.2))
        else if e = 'n' then
          (parseJsonString cs2).map (fun r => ('\n' :: r.1, r.2))
        else if e = 'r' then
          (parseJsonString cs2).map (fun r => ('\r' :: r.1, r.2))
        else if e = 't' then
          (parseJsonString cs2).map (fun r => ('\t' :: r.1, r.2))
        else if e = 'u' then
          match cs2 with
          | h1 :: h2 :: h3 :: h4 :: cs3 =>
            match hexVal h1, hexVal h2, hexVal h3, hexVal h4 with
            | some a, some b, some c1, some d =>
              let n := ((a * 16 + b) * 16 + c1) * 16 + d
              if n.isValidChar then
                (parseJsonString cs3).map (fun r => (Char.ofNat n :: r.1, r.2))
              else none
            | _, _, _, _ => none
          | _ => none
        else none
    else if c.toNat < 32 then none
    else (parseJsonString cs).map (fun r => (c :: r.1, r.2))

def parseMember (cs0 : List Char) : Option ((String × String) × List Char) :=
  match cs0 with
  | c :: cs =>
    if c = '\"' then
      match parseJsonString cs with
      | some (k, rest1) =>
        match rest1 with
        | c2 :: c3 :: rest2 =>
          if c2 = ':' ∧ c3 = '\"' then
            match parseJsonString rest2 with
            | some (v, rest3) => some ((⟨k⟩, ⟨v⟩), rest3)
            | none => none
          else none
        | _ => none
      | none => none
    else none
  | [] => none

def parseMembers : Nat → List Char → Option (List (String × String) × List Char)
  | 0, _ => none
  | n + 1, cs =>
    match parseMember cs with
    | some (kv, rest) =>
      match rest with
      | c :: rest2 =>
        if c = ',' then
          match parseMembers n rest2 with
          | some (l, r) => some (kv :: l, r)
          | none => none
        else some ([kv], c :: rest2)
      | [] => some ([kv], [])
    | none => none

def getStreamStatus (content : String) : Option Ledger :=
  match content.data with
  | c :: cs =>
    if c = '{' then
      if cs = ['}'] then some []
      else
        match parseMembers cs.length cs with
        | some (mems, rest) => if rest = ['}'] then some mems else none
        | none => none
    else none
  | [] => none

theorem parseJsonString_quote (cs : List Char) :
    parseJsonString ('\"' :: cs) = some ([], cs) := by
  conv_lhs => unfold parseJsonString
  simp

theorem parseJsonString_esc_quote (cs : List Char) :
    parseJsonString ('\\' :: '\"' :: cs) =
      (parseJsonString cs).map (fun r => ('\"' :: r.1, r.2)) := by
  conv_lhs => unfold parseJsonString
  simp

theorem parseJsonString_esc_back (cs : List Char) :
    parseJsonString ('\\' :: '\\' :: cs) =
      (parseJsonString cs).map (fun r => ('\\' :: r.1, r.2)) := by
  conv_lhs => unfold parseJsonString
  simp

theorem parseJsonString_esc_n (cs : List Char) :
    parseJsonString ('\\' :: 'n' :: cs) =
      (parseJsonString cs).map (fun r => ('\n' :: r.1, r.2)) := by
  conv_lhs => unfold parseJsonString
  simp

theorem parseJsonString_esc_t (cs : List Char) :
    parseJsonString ('\\' :: 't' :: cs) =
      (parseJsonString cs).map (fun r => ('\t' :: r.1, r.2)) := by
  conv_lhs => unfold parseJsonString
  simp

theorem parseJsonString_esc_r (cs : List Char) :
    parseJsonString ('\\' :: 'r' :: cs) =
      (parseJsonString cs).map (fun r => ('\r' :: r.1, r.2)) := by
  conv_lhs => unfold parseJsonString
  simp

theorem parseJsonString_esc_b (cs : List Char) :
    parseJsonString ('\\' :: 'b' :: cs) =
      (parseJsonString cs).map (fun r => (Char.ofNat 8 :: r.1, r.2)) := by
  conv_lhs => unfold parseJsonString
  simp

theorem parseJsonString_esc_f (cs : List Char) :
    parseJsonString ('\\' :: 'f' :: cs) =
      (parseJsonString cs).map (fun r => (Char.ofNat 12 :: r.1, r.2)) := by
  conv_lhs => unfold parseJsonString
  simp

theorem parseJsonString_esc_u (h1 h2 h3 h4 : Char) (cs : List Char)
    (a b c1 d : Nat) (ha : hexVal h1 = some a) (hb : hexVal h2 = some b)
    (hc : hexVal h3 = some c1) (hd : hexVal h4 = some d)
    (hv : (((a * 16 + b) * 16 + c1) * 16 + d).isValidChar) :
    parseJsonString ('\\' :: 'u' :: h1 :: h2 :: h3 :: h4 :: cs) =
      (parseJsonString cs).map
        (fun r => (Char.ofNat (((a * 16 + b) * 16 + c1) * 16 + d) :: r.1, r.2)) := by
  conv_lhs => unfold parseJsonString
  simp [ha, hb, hc, hd, hv]


theorem parseJsonString_plain (c : Char) (cs : List Char)
    (h1 : ¬ c = '\"') (h2 : ¬ c = '\\') (h3 : ¬ c.toNat < 32) :
    parseJsonString (c :: cs) =
      (parseJsonString cs).map (fun r => (c :: r.1, r.2)) := by
  conv_lhs => unfold parseJsonString
  simp [h1, h2, h3]

theorem hexVal_hexDigit : ∀ n : Nat, n < 16 → hexVal (hexDigit n) = some n := by
  decide

theorem isValidChar_of_lt32 {n : Nat} (h : n < 32) : n.isValidChar :=
  Or.inl (by omega)

theorem escapeChar_low (c : Char) (h1 : ¬ c = '\"') (h2 : ¬ c = '\\')
    (h3 : ¬ c = '\n') (h4 : ¬ c = '\t') (h5 : ¬ c = '\r')
    (h6 : ¬ c.toNat = 8) (h7 : ¬ c.toNat = 12) (h8 : c.toNat < 32) :
    escapeChar c =
      ['\\', 'u', '0', '0', hexDigit (c.toNat / 16), hexDigit (c.toNat % 16)] := by
  simp [escapeChar, h1, h2, h3, h4, h5, h6, h7, h8]

theorem parse_escapeString (s : List Char) (rest : List Char) :
    parseJsonString (escapeString s ++ '\"' :: rest) = some (s, rest) := by
  induction s with
  | nil =>
    simp only [escapeString, List.nil_append, parseJsonString_quote]
  | cons c cs ih =>
    simp only [escapeString, List.append_assoc]
    by_cases h1 : c = '\"'
    · subst h1
      rw [show escapeChar '\"' = ['\\', '\"'] from rfl]
      simp only [List.cons_append, List.nil_append]
      rw [parseJsonString_esc_quote, ih]
      rfl
    · by_cases h2 : c = '\\'
      · subst h2
        rw [show escapeChar '\\' = ['\\', '\\'] from rfl]
        simp only [List.cons_append, List.nil_append]
        rw [parseJsonString_esc_back, ih]
        rfl
      · by_cases h3 : c = '\n'
        · subst h3
          rw [show escapeChar '\n' = ['\\', 'n'] from rfl]
          simp only [List.cons_append, List.nil_append]
          rw [parseJsonString_esc_n, ih]
          rfl
        · by_cases h4 : c = '\t'
          · subst h4
            rw [show escapeChar '\t' = ['\\', 't'] from rfl]
            simp only [List.cons_append, List.nil_append]
            rw [parseJsonString_esc_t, ih]
            rfl
          · by_cases h5 : c = '\r'
            · subst h5
              rw [show escapeChar '\r' = ['\\', 'r'] from rfl]
              simp only [List.cons_append, List.nil_append]
              rw [parseJsonString_esc_r, ih]
              rfl
            · by_cases h6 : c.toNat = 8
              · have hc : escapeChar c = ['\\', 'b'] := by
                  simp [escapeChar, h1, h2, h3, h4, h5, h6]
                rw [hc]
                simp only [List.cons_append, List.nil_append]
                rw [parseJsonString_esc_b, ih]
                have : Char.ofNat 8 = c := by
                  rw [← h6]
                  exact Char.ofNat_toNat c
                rw [this]
                rfl
              · by_cases h7 : c.toNat = 12
                · have hc : escapeChar c = ['\\', 'f'] := by
                    simp [escapeChar, h1, h2, h3, h4, h5, h6, h7]
                  rw [hc]
                  simp only [List.cons_append, List.nil_append]
                  rw [parseJsonString_esc_f, ih]
                  have : Char.ofNat 12 = c := by
                    rw [← h7]
                    exact Char.ofNat_toNat c
                  rw [this]
                  rfl
                · by_cases h8 : c.toNat < 32
                  · rw [escapeChar_low c h1 h2 h3 h4 h5 h6 h7 h8]
                    simp only [List.cons_append, List.nil_append]
                    have hdiv : c.toNat / 16 < 16 := by omega
                    have hmod : c.toNat % 16 < 16 := by omega
                    rw [parseJsonString_esc_u '0' '0' _ _ _ 0 0
                      (c.toNat / 16) (c.toNat % 16) (by decide) (by decide)
                      (hexVal_hexDigit _ hdiv) (hexVal_hexDigit _ hmod)
                      (isValidChar_of_lt32 (by omega)), ih]
                    have hn : ((0 * 16 + 0) * 16 + c.toNat / 16) * 16 +
                        c.toNat % 16 = c.toNat := by omega
                    simp [hn, Char.ofNat_toNat]
                    rw [show c.toNat / 16 * 16 + c.toNat % 16 = c.toNat from
                      by omega, Char.ofNat_toNat]
                  · have hc : escapeChar c = [c] := by
                      simp [escapeChar, h1, h2, h3, h4, h5, h6, h7, h8]
                    rw [hc]
                    simp only [List.cons_append, List.nil_append]
                    rw [parseJsonString_plain c _ h1 h2 h8, ih]
                    rfl

theorem parse_memberEncode (p : String × String) (rest : List Char) :
    parseMember (memberEncode p ++ rest) = some (p, rest) := by
  obtain ⟨k, v⟩ := p
  simp only [memberEncode, List.cons_append, List.append_assoc, List.nil_append]
  unfold parseMember
  simp [parse_escapeString]

theorem joinMembers_map_cons (p q : String × String)
    (t2 : List (String × String)) :
    joinMembers ((p :: q :: t2).map memberEncode) =
      memberEncode p ++ ',' :: joinMembers ((q :: t2).map memberEncode) := rfl

theorem joinMembers_length (l : List (String × String)) :
    l.length ≤ (joinMembers (l.map memberEncode)).length + 1 := by
  induction l with
  | nil => simp [joinMembers]
  | cons p t ih =>
    cases t with
    | nil => simp [joinMembers]
    | cons q t2 =>
      rw [joinMembers_map_cons]
      simp only [List.length_cons, List.length_append] at ih ⊢
      omega

theorem parse_joinMembers (l : List (String × String)) (rest : List Char) :
    ∀ fuel : Nat, l ≠ [] → l.length ≤ fuel →
      parseMembers fuel (joinMembers (l.map memberEncode) ++ '}' :: rest) =
        some (l, '}' :: rest) := by
  induction l with
  | nil => intro fuel h _; exact absurd rfl h
  | cons p t ih =>
    intro fuel _ hlen
    cases fuel with
    | zero => simp at hlen
    | succ n =>
      cases t with
      | nil =>
        rw [List.map_cons, List.map_nil,
          show joinMembers [memberEncode p] = memberEncode p from rfl]
        unfold parseMembers
        rw [parse_memberEncode]
        simp
      | cons q t2 =>
        rw [joinMembers_map_cons, List.append_assoc]
        unfold parseMembers
        rw [parse_memberEncode]
        simp only [List.cons_append, if_true]
        rw [ih n (by simp) (by
          simp only [List.length_cons] at hlen ⊢
          omega)]

theorem storeStreamStatus_data (l : Ledger) :
    (storeStreamStatus l).data =
      '{' :: joinMembers (l.map memberEncode) ++ ['}'] := rfl

theorem joinMembers_head (p : String × String) (t : List (String × String)) :
    ∃ Q, joinMembers ((p :: t).map memberEncode) = '\"' :: Q := by
  cases t with
  | nil => exact ⟨_, rfl⟩
  | cons q t2 => exact ⟨_, rfl⟩

theorem getStreamStatus_store (l : Ledger) :
    getStreamStatus (storeStreamStatus l) = some l := by
  cases l with
  | nil => rfl
  | cons p t =>
    obtain ⟨Q, hQ⟩ := joinMembers_head p t
    have hne : ¬ (joinMembers ((p :: t).map memberEncode) ++ ['}'] = ['}']) := by
      rw [hQ]
      simp
    have hlen : (p :: t).length ≤
        (joinMembers ((p :: t).map memberEncode) ++ ['}']).length := by
      have h := joinMembers_length (p :: t)
      simp only [List.length_append, List.length_cons, List.length_nil] at h ⊢
      omega
    unfold getStreamStatus
    rw [storeStreamStatus_data]
    simp [hne]
    have hfuel : (p :: t).length ≤
        (joinMembers (memberEncode p :: List.map memberEncode t)).length + 1 := by
      have h := joinMembers_length (p :: t)
      simpa using h
    have hp := parse_joinMembers (p :: t) [] _ (by simp) hfuel
    simp only [List.map_cons] at hp
    have hne2 : ¬ joinMembers (memberEncode p :: List.map memberEncode t) = [] := by
      have hq2 := hQ
      simp only [List.map_cons] at hq2
      simp [hq2]
    rw [if_neg hne2,
      show (joinMembers (memberEncode p :: List.map memberEncode t) ++ ['}'] :
        List Char) =
        joinMembers (memberEncode p :: List.map memberEncode t) ++ '}' :: []
        from rfl,
      hp]
    simp


/-! ### Basic lemmas about the ledger operations -/

theorem getStatus_nil (j : String) : getStatus [] j = none := rfl

theorem getStatus_cons (k w : String) (rest : Ledger) (j : String) :
    getStatus ((k, w) :: rest) j = if k = j then some w else getStatus rest j := by
  rcases eq_or_ne k j with h | h
  · simp [getStatus, List.find?_cons_of_pos, h]
  · simp [getStatus, List.find?_cons_of_neg, h]

theorem setStatus_cons (k w id v : String) (rest : Ledger) :
    setStatus ((k, w) :: rest) id v =
      if k = id then (k, v) :: rest else (k, w) :: setStatus rest id v := by
  simp [setStatus]

theorem delStatus_cons (k w id : String) (rest : Ledger) :
    delStatus ((k, w) :: rest) id =
      if k = id then delStatus rest id else (k, w) :: delStatus rest id := by
  simp [delStatus]

theorem getStatus_setStatus (st : Ledger) (id v j : String) :
    getStatus (setStatus st id v) j =
      if j = id then some v else getStatus st j := by
  induction st with
  | nil =>
    show getStatus [(id, v)] j = _
    rw [getStatus_cons, getStatus_nil]
    by_cases h : j = id
    · rw [if_pos h.symm, if_pos h]
    · rw [if_neg (fun hh => h hh.symm), if_neg h]
  | cons p rest ih =>
    obtain ⟨k, w⟩ := p
    rw [setStatus_cons]
    by_cases hk : k = id
    · rw [if_pos hk]
      subst hk
      rw [getStatus_cons, getStatus_cons]
      by_cases h : k = j
      · rw [if_pos h, if_pos h.symm]
      · rw [if_neg h, if_neg (fun hh => h hh.symm), if_neg h]
    · rw [if_neg hk, getStatus_cons, getStatus_cons, ih]
      by_cases h : k = j
      · have hji : ¬ j = id := fun hh => hk (h.trans hh)
        rw [if_pos h, if_neg hji, if_pos h]
      · rw [if_neg h, if_neg h]

theorem getStatus_delStatus (st : Ledger) (id j : String) :
    getStatus (delStatus st id) j =
      if j = id then none else getStatus st j := by
  induction st with
  | nil => simp [delStatus, getStatus_nil]
  | cons p rest ih =>
    obtain ⟨k, w⟩ := p
    rw [delStatus_cons]
    by_cases hk : k = id
    · rw [if_pos hk]
      subst hk
      rw [ih, getStatus_cons]
      by_cases h : j = k
      · rw [if_pos h, if_pos h]
      · rw [if_neg h, if_neg h, if_neg (fun hh => h hh.symm)]
    · rw [if_neg hk, getStatus_cons, ih, getStatus_cons]
      by_cases h : k = j
      · have hji : ¬ j = id := fun hh => hk (h.trans hh)
        rw [if_pos h, if_neg hji, if_pos h]
      · rw [if_neg h, if_neg h]

theorem mem_keys_of_getStatus {st : Ledger} {j v : String}
    (h : getStatus st j = some v) : j ∈ keys st := by
  induction st with
  | nil => simp [getStatus_nil] at h
  | cons p rest ih =>
    obtain ⟨k, w⟩ := p
    rw [getStatus_cons] at h
    by_cases hk : k = j
    · simp [keys, hk]
    · rw [if_neg hk] at h
      simp [keys] at ih ⊢
      exact Or.inr (ih h)

theorem mem_streamIdsToBeChecked (st : Ledger) (j : String) :
    j ∈ streamIdsToBeChecked st ↔ getStatus st j = some "unknown" := by
  simp only [streamIdsToBeChecked, List.mem_filter, beq_iff_eq]
  constructor
  · exact fun h => h.2
  · exact fun h => ⟨mem_keys_of_getStatus h, h⟩

theorem mem_streamIdsToBeDeleted (st : Ledger) (j : String) :
    j ∈ streamIdsToBeDeleted st ↔ getStatus st j = some "inactive" := by
  simp only [streamIdsToBeDeleted, List.mem_filter, beq_iff_eq]
  constructor
  · exact fun h => h.2
  · exact fun h => ⟨mem_keys_of_getStatus h, h⟩

/-! ### Lemmas about the folds inside the pipelines -/

theorem getStatus_foldl_set (ps : List (String × Bool)) (v : String)
    (st : Ledger) (j : String) :
    getStatus (ps.foldl (fun st p => setStatus st p.1 v) st) j =
      if j ∈ ps.map (fun p => p.1) then some v else getStatus st j := by
  induction ps generalizing st with
  | nil => simp
  | cons p rest ih =>
    simp only [List.foldl_cons, ih, List.map_cons, List.mem_cons]
    by_cases hr : j ∈ rest.map (fun p => p.1)
    · simp [hr]
    · by_cases hp : j = p.1 <;> simp [hr, hp, getStatus_setStatus]

theorem getStatus_foldl_set_ids (ids : List String) (v : String)
    (st : Ledger) (j : String) :
    getStatus (ids.foldl (fun st id => setStatus st id v) st) j =
      if j ∈ ids then some v else getStatus st j := by
  induction ids generalizing st with
  | nil => simp
  | cons i rest ih =>
    simp only [List.foldl_cons, ih, List.mem_cons]
    by_cases hr : j ∈ rest
    · simp [hr]
    · by_cases hp : j = i <;> simp [hr, hp, getStatus_setStatus]

theorem getStatus_foldl_del (ps : List (String × Bool)) (st : Ledger)
    (j : String) :
    getStatus (ps.foldl (fun st p => delStatus st p.1) st) j =
      if j ∈ ps.map (fun p => p.1) then none else getStatus st j := by
  induction ps generalizing st with
  | nil => simp
  | cons p rest ih =>
    simp only [List.foldl_cons, ih, List.map_cons, List.mem_cons]
    by_cases hr : j ∈ rest.map (fun p => p.1)
    · simp [hr]
    · by_cases hp : j = p.1 <;> simp [hr, hp, getStatus_delStatus]

theorem getStatus_deleteBatch (del : String → Bool) (batch : List String)
    (st : Ledger) (j : String) :
    getStatus (deleteBatch del batch st).1 j =
      if j ∈ batch ∧ del j then some "deleted" else getStatus st j := by
  simp only [deleteBatch]
  induction batch generalizing st with
  | nil => simp
  | cons i rest ih =>
    simp only [List.foldl_cons, ih, List.mem_cons]
    by_cases hr : j ∈ rest ∧ del j
    · simp [hr.1, hr.2]
    · rw [if_neg hr]
      by_cases hp : j = i
      · subst hp
        by_cases hd : del j
        · rw [if_pos hd, getStatus_setStatus, if_pos rfl, if_pos ⟨Or.inl rfl, hd⟩]
        · rw [if_neg hd, if_neg (fun hc => hd hc.2)]
      · have hcond : ¬ ((j = i ∨ j ∈ rest) ∧ del j) := fun hc =>
          hc.1.elim (fun h1 => hp h1) (fun h1 => hr ⟨h1, hc.2⟩)
        rw [if_neg hcond]
        by_cases hd : del i
        · rw [if_pos hd, getStatus_setStatus, if_neg hp]
        · rw [if_neg hd]

/-! ### Behaviour of `filterBatch` -/

theorem getStatus_filterBatch_inactive (query : String → Option Bool)
    (batch : List String) (st : Ledger) (j : String)
    (hall : ∀ i ∈ batch, (query i).isSome) (hj : j ∈ batch)
    (hq : query j = some false) :
    getStatus (filterBatch query batch st) j = some "inactive" := by
  have hdel : j ∉ ((batch.map (fun id => (id, (query id).getD false))).filter
      (fun p => p.2)).map (fun p => p.1) := by
    simp only [List.mem_map, List.mem_filter]
    rintro ⟨p, ⟨⟨i, hi, rfl⟩, hact⟩, rfl⟩
    have hq2 : query i = some false := by simpa using hq
    simp [hq2] at hact
  have hset : j ∈ ((batch.map (fun id => (id, (query id).getD false))).filter
      (fun p => !p.2)).map (fun p => p.1) := by
    simp only [List.mem_map, List.mem_filter]
    exact ⟨(j, (query j).getD false), ⟨⟨j, hj, rfl⟩, by simp [hq]⟩, rfl⟩
  simp only [filterBatch]
  rw [if_pos (by simpa using hall), getStatus_foldl_del, if_neg hdel,
    getStatus_foldl_set, if_pos hset]

theorem getStatus_filterBatch_active (query : String → Option Bool)
    (batch : List String) (st : Ledger) (j : String)
    (hall : ∀ i ∈ batch, (query i).isSome) (hj : j ∈ batch)
    (hq : query j = some true) :
    getStatus (filterBatch query batch st) j = none := by
  have hdel : j ∈ ((batch.map (fun id => (id, (query id).getD false))).filter
      (fun p => p.2)).map (fun p => p.1) := by
    simp only [List.mem_map, List.mem_filter]
    exact ⟨(j, (query j).getD false), ⟨⟨j, hj, rfl⟩, by simp [hq]⟩, rfl⟩
  simp only [filterBatch]
  rw [if_pos (by simpa using hall), getStatus_foldl_del, if_pos hdel]

theorem getStatus_filterBatch_fail (query : String → Option Bool)
    (batch : List String) (st : Ledger) (j : String)
    (hfail : ∃ i ∈ batch, query i = none) (hj : j ∈ batch) :
    getStatus (filterBatch query batch st) j = some "unknown" := by
  have hcond : ¬ (batch.all (fun id => (query id).isSome) = true) := by
    simp only [List.all_eq_true]
    obtain ⟨i, hi, hnone⟩ := hfail
    exact fun h => by simpa [hnone] using h i hi
  rw [filterBatch, if_neg hcond, getStatus_foldl_set_ids, if_pos hj]

theorem getStatus_filterBatch_frame (query : String → Option Bool)
    (batch : List String) (st : Ledger) (j : String) (hj : j ∉ batch) :
    getStatus (filterBatch query batch st) j = getStatus st j := by
  have hkeys : ∀ (f : String × Bool → Bool),
      j ∉ (((batch.map (fun id => (id, (query id).getD false))).filter
        f).map (fun p => p.1)) := by
    intro f
    simp only [List.mem_map, List.mem_filter]
    rintro ⟨p, ⟨⟨i, hi, rfl⟩, -⟩, rfl⟩
    exact hj hi
  simp only [filterBatch]
  by_cases hcond : batch.all (fun id => (query id).isSome) = true
  · rw [if_pos hcond, getStatus_foldl_del, if_neg (hkeys _),
      getStatus_foldl_set, if_neg (hkeys _)]
  · rw [if_neg hcond, getStatus_foldl_set_ids, if_neg hj]

/-! ### `split` produces sublists of its input -/

theorem splitAux_subset (all : List String) :
    ∀ (n curr : Nat) (res : List (List String)),
      all.length - curr ≤ n →
      (∀ b ∈ res, ∀ x ∈ b, x ∈ all) →
      ∀ b ∈ splitAux all curr res, ∀ x ∈ b, x ∈ all := by
  intro n
  induction n with
  | zero =>
    intro curr res hn hres b hb
    rw [splitAux] at hb
    have hc : curr + BATCH_SIZE > all.length := by
      simp [BATCH_SIZE]; omega
    rw [if_pos hc] at hb
    by_cases hr : res.length = 0
    · rw [if_pos hr] at hb
      simp only [List.mem_singleton] at hb
      subst hb
      exact fun x hx => hx
    · rw [if_neg hr] at hb
      exact hres b hb
  | succ n ih =>
    intro curr res hn hres b hb
    rw [splitAux] at hb
    by_cases hc : curr + BATCH_SIZE > all.length
    · rw [if_pos hc] at hb
      by_cases hr : res.length = 0
      · rw [if_pos hr] at hb
        simp only [List.mem_singleton] at hb
        subst hb
        exact fun x hx => hx
      · rw [if_neg hr] at hb
        exact hres b hb
    · rw [if_neg hc] at hb
      refine ih (curr + BATCH_SIZE) _ (by simp [BATCH_SIZE] at *; omega) ?_ b hb
      intro b2 hb2 x hx
      rcases List.mem_append.mp hb2 with h | h
      · exact hres b2 h x hx
      · simp only [List.mem_singleton] at h
        subst h
        exact List.drop_subset curr all (List.take_subset _ _ hx)

theorem mem_split_subset (ids : List String) :
    ∀ b ∈ split ids, ∀ x ∈ b, x ∈ ids := by
  refine splitAux_subset ids ids.length 0 [] (by omega) ?_
  intro b hb
  simp at hb

/-! ### Frame lemmas for the batched phases -/

theorem getStatus_foldl_filterBatch_frame (query : String → Option Bool)
    (bs : List (List String)) (j : String) :
    ∀ st : Ledger, (∀ b ∈ bs, j ∉ b) →
      getStatus (bs.foldl (fun st b => filterBatch query b st) st) j =
        getStatus st j := by
  induction bs with
  | nil => intro st _; rfl
  | cons b rest ih =>
    intro st hb
    rw [List.foldl_cons,
      ih _ (fun b2 h2 => hb b2 (List.mem_cons_of_mem _ h2)),
      getStatus_filterBatch_frame query b st j (hb b (List.mem_cons_self _ _))]

theorem getStatus_batchCheck_frame (query : String → Option Bool)
    (ids : List String) (st : Ledger) (j : String) (hj : j ∉ ids) :
    getStatus (batchCheckStreamStatuses query ids st) j = getStatus st j := by
  rw [batchCheckStreamStatuses]
  exact getStatus_foldl_filterBatch_frame query (split ids) j st
    (fun b hbs hjb => hj (mem_split_subset ids b hbs j hjb))

theorem fold_deleteBatch_fst (del : String → Bool)
    (bs : List (List String)) (p : Ledger × List String) :
    (bs.foldl
      (fun acc b =>
        let r := deleteBatch del b acc.1
        (r.1, acc.2 ++ r.2)) p).1 =
      bs.foldl (fun st b => (deleteBatch del b st).1) p.1 := by
  induction bs generalizing p with
  | nil => rfl
  | cons b rest ih => rw [List.foldl_cons, List.foldl_cons, ih]

theorem getStatus_foldl_deleteBatch (del : String → Bool)
    (bs : List (List String)) (st : Ledger) (j : String) :
    getStatus (bs.foldl (fun st b => (deleteBatch del b st).1) st) j =
      if (∃ b ∈ bs, j ∈ b) ∧ del j then some "deleted" else getStatus st j := by
  induction bs generalizing st with
  | nil => simp
  | cons b rest ih =>
    rw [List.foldl_cons, ih, getStatus_deleteBatch]
    by_cases hr : (∃ b2 ∈ rest, j ∈ b2) ∧ del j
    · obtain ⟨⟨b2, hb2, hjb2⟩, hdel⟩ := hr
      rw [if_pos ⟨⟨b2, hb2, hjb2⟩, hdel⟩,
        if_pos ⟨⟨b2, List.mem_cons_of_mem _ hb2, hjb2⟩, hdel⟩]
    · rw [if_neg hr]
      by_cases hb : j ∈ b ∧ del j
      · rw [if_pos hb, if_pos ⟨⟨b, List.mem_cons_self _ _, hb.1⟩, hb.2⟩]
      · rw [if_neg hb, if_neg ?_]
        rintro ⟨⟨b2, hb2, hjb2⟩, hdel⟩
        rcases List.mem_cons.mp hb2 with h | h
        · exact hb ⟨h ▸ hjb2, hdel⟩
        · exact hr ⟨⟨b2, h, hjb2⟩, hdel⟩

theorem getStatus_batchDeleteStreams (del : String → Bool)
    (ids : List String) (st : Ledger) (j : String) :
    getStatus (batchDeleteStreams del ids st).1 j =
      if (∃ b ∈ split ids, j ∈ b) ∧ del j then some "deleted"
      else getStatus st j := by
  rw [batchDeleteStreams, fold_deleteBatch_fst, getStatus_foldl_deleteBatch]

theorem getStatus_batchDeleteStreams_frame (del : String → Bool)
    (ids : List String) (st : Ledger) (j : String) (hj : j ∉ ids) :
    getStatus (batchDeleteStreams del ids st).1 j = getStatus st j := by
  rw [getStatus_batchDeleteStreams, if_neg]
  rintro ⟨⟨b, hb, hjb⟩, -⟩
  exact hj (mem_split_subset ids b hb j hjb)

/-! ### Distinct keys are preserved by every ledger operation -/

theorem mem_keys_setStatus (st : Ledger) (id v a : String) :
    a ∈ keys (setStatus st id v) ↔ a ∈ keys st ∨ a = id := by
  induction st with
  | nil => simp [setStatus, keys]
  | cons p rest ih =>
    obtain ⟨k, w⟩ := p
    rw [setStatus_cons]
    by_cases hk : k = id
    · subst hk
      by_cases h : a = k <;> simp_all [keys]
    · simp only [if_neg hk, keys, List.map_cons, List.mem_cons] at ih ⊢
      rw [ih]
      tauto

theorem nodup_keys_setStatus (st : Ledger) (id v : String)
    (hnd : (keys st).Nodup) : (keys (setStatus st id v)).Nodup := by
  induction st with
  | nil => simp [setStatus, keys]
  | cons p rest ih =>
    obtain ⟨k, w⟩ := p
    simp only [keys, List.map_cons, List.nodup_cons] at hnd
    rw [setStatus_cons]
    by_cases hk : k = id
    · simp only [if_pos hk, keys, List.map_cons, List.nodup_cons]
      exact hnd
    · simp only [if_neg hk, keys, List.map_cons, List.nodup_cons]
      refine ⟨fun hmem => ?_, ih hnd.2⟩
      rcases (mem_keys_setStatus rest id v k).mp hmem with h | h
      · exact hnd.1 h
      · exact hk h

theorem delStatus_sublist (st : Ledger) (id : String) :
    (delStatus st id).Sublist st := by
  induction st with
  | nil => simp [delStatus]
  | cons p rest ih =>
    obtain ⟨k, w⟩ := p
    rw [delStatus_cons]
    by_cases hk : k = id
    · rw [if_pos hk]
      exact ih.cons (k, w)
    · rw [if_neg hk]
      exact ih.cons₂ (k, w)

theorem nodup_keys_delStatus (st : Ledger) (id : String)
    (hnd : (keys st).Nodup) : (keys (delStatus st id)).Nodup :=
  hnd.sublist
    (List.Sublist.map (fun p : String × String => p.1)
      (delStatus_sublist st id))

theorem nodup_keys_foldl {α : Type} (f : Ledger → α → Ledger)
    (hf : ∀ st a, (keys st).Nodup → (keys (f st a)).Nodup) :
    ∀ (l : List α) (st : Ledger), (keys st).Nodup →
      (keys (l.foldl f st)).Nodup := by
  intro l
  induction l with
  | nil => exact fun st h => h
  | cons a rest ih => exact fun st h => ih (f st a) (hf st a h)

theorem nodup_keys_filterBatch (query : String → Option Bool)
    (batch : List String) (st : Ledger) (hnd : (keys st).Nodup) :
    (keys (filterBatch query batch st)).Nodup := by
  simp only [filterBatch]
  by_cases hcond : batch.all (fun id => (query id).isSome) = true
  · rw [if_pos hcond]
    exact nodup_keys_foldl _ (fun st p h => nodup_keys_delStatus st p.1 h) _ _
      (nodup_keys_foldl _ (fun st p h => nodup_keys_setStatus st p.1 _ h) _ _
        hnd)
  · rw [if_neg hcond]
    exact nodup_keys_foldl _ (fun st i h => nodup_keys_setStatus st i _ h) _ _
      hnd

theorem nodup_keys_batchCheck (query : String → Option Bool)
    (ids : List String) (st : Ledger) (hnd : (keys st).Nodup) :
    (keys (batchCheckStreamStatuses query ids st)).Nodup :=
  nodup_keys_foldl _ (fun st b h => nodup_keys_filterBatch query b st h)
    (split ids) st hnd

theorem nodup_keys_deleteBatch (del : String → Bool) (batch : List String)
    (st : Ledger) (hnd : (keys st).Nodup) :
    (keys (deleteBatch del batch st).1).Nodup := by
  simp only [deleteBatch]
  refine nodup_keys_foldl _ (fun st i h => ?_) batch st hnd
  by_cases hd : del i
  · rw [if_pos hd]; exact nodup_keys_setStatus st i _ h
  · rwa [if_neg hd]

theorem nodup_keys_batchDeleteStreams (del : String → Bool)
    (ids : List String) (st : Ledger) (hnd : (keys st).Nodup) :
    (keys (batchDeleteStreams del ids st).1).Nodup := by
  rw [batchDeleteStreams, fold_deleteBatch_fst]
  exact nodup_keys_foldl _ (fun st b h => nodup_keys_deleteBatch del b st h)
    (split ids) st hnd

theorem nodup_keys_deleteStreams (dryRun : Bool) (del : String → Bool)
    (st : Ledger) (hnd : (keys st).Nodup) :
    (keys (deleteStreams dryRun del st).1).Nodup := by
  rw [deleteStreams]
  by_cases hd : dryRun
  · rwa [if_pos hd]
  · rw [if_neg hd]
    exact nodup_keys_batchDeleteStreams del _ st hnd

theorem nodup_keys_resume (query : String → Option Bool)
    (del : String → Bool) (dryRun : Bool) (st : Ledger)
    (hnd : (keys st).Nodup) : (keys (resume query del dryRun st).1).Nodup :=
  nodup_keys_deleteStreams dryRun del _ (nodup_keys_batchCheck query _ st hnd)

/-! ### Lookup versus membership on ledgers with distinct keys -/

theorem getStatus_eq_some_iff (st : Ledger) (hnd : (keys st).Nodup)
    (j v : String) : getStatus st j = some v ↔ (j, v) ∈ st := by
  induction st with
  | nil => simp [getStatus_nil]
  | cons p rest ih =>
    obtain ⟨k, w⟩ := p
    simp only [keys, List.map_cons, List.nodup_cons] at hnd
    rw [getStatus_cons]
    by_cases hk : k = j
    · subst hk
      rw [if_pos rfl]
      constructor
      · intro h
        have hv : w = v := Option.some.inj h
        subst hv
        exact List.mem_cons_self _ _
      · intro hmem
        rcases List.mem_cons.mp hmem with heq | hmem2
        · have hv : v = w := congrArg Prod.snd heq
          rw [hv]
        · exact absurd (List.mem_map_of_mem (fun p => p.1) hmem2) hnd.1
    · rw [if_neg hk, ih hnd.2]
      constructor
      · exact fun h => List.mem_cons_of_mem _ h
      · intro hmem
        rcases List.mem_cons.mp hmem with heq | hmem2
        · exact absurd (congrArg Prod.fst heq) (fun hh => hk hh.symm)
        · exact hmem2

theorem mem_filter_map_iff (st : Ledger) (hnd : (keys st).Nodup)
    (j v : String) :
    j ∈ ((st.filter (fun p => p.2 == v)).map (fun p => p.1)) ↔
      getStatus st j = some v := by
  rw [getStatus_eq_some_iff st hnd]
  simp only [List.mem_map, List.mem_filter, beq_iff_eq]
  constructor
  · rintro ⟨⟨a, b⟩, ⟨hm, hv⟩, rfl⟩
    exact hv ▸ hm
  · intro hm
    exact ⟨(j, v), ⟨hm, rfl⟩, rfl⟩

/-! ### The final report -/

theorem report_foldl (st : Ledger) :
    ∀ acc : Report,
      st.foldl
        (fun acc p =>
          if p.2 == "unknown" then { acc with unknown := acc.unknown ++ [p.1] }
          else if p.2 == "inactive" then
            { acc with inactive := acc.inactive ++ [p.1] }
          else if p.2 == "deleted" then
            { acc with deleted := acc.deleted ++ [p.1] }
          else acc)
        acc =
      ⟨acc.unknown ++ (st.filter (fun p => p.2 == "unknown")).map (fun p => p.1),
       acc.inactive ++
         (st.filter (fun p => p.2 == "inactive")).map (fun p => p.1),
       acc.deleted ++
         (st.filter (fun p => p.2 == "deleted")).map (fun p => p.1)⟩ := by
  induction st with
  | nil => intro acc; simp
  | cons p rest ih =>
    intro acc
    obtain ⟨k, v⟩ := p
    rw [List.foldl_cons, ih]
    by_cases h1 : v = "unknown"
    · simp [h1, List.filter_cons]
    · by_cases h2 : v = "inactive"
      · simp [h1, h2, List.filter_cons]
      · by_cases h3 : v = "deleted"
        · simp [h1, h2, h3, List.filter_cons]
        · simp [h1, h2, h3, List.filter_cons]

theorem report_eq (st : Ledger) :
    report st =
      ⟨(st.filter (fun p => p.2 == "unknown")).map (fun p => p.1),
       (st.filter (fun p => p.2 == "inactive")).map (fun p => p.1),
       (st.filter (fun p => p.2 == "deleted")).map (fun p => p.1)⟩ := by
  rw [report, report_foldl]
  simp

theorem mem_report_unknown (st : Ledger) (hnd : (keys st).Nodup)
    (j : String) :
    j ∈ (report st).unknown ↔ getStatus st j = some "unknown" := by
  rw [report_eq]
  exact mem_filter_map_iff st hnd j "unknown"

theorem mem_report_inactive (st : Ledger) (hnd : (keys st).Nodup)
    (j : String) :
    j ∈ (report st).inactive ↔ getStatus st j = some "inactive" := by
  rw [report_eq]
  exact mem_filter_map_iff st hnd j "inactive"

theorem mem_report_deleted (st : Ledger) (hnd : (keys st).Nodup)
    (j : String) :
    j ∈ (report st).deleted ↔ getStatus st j = some "deleted" := by
  rw [report_eq]
  exact mem_filter_map_iff st hnd j "deleted"

/-! ### Concrete instances used by the witnesses -/

/-- Example activity oracle: `"a"` is inactive, `"b"` is active, any other
query rejects. -/
def exQuery : String → Option Bool :=
  fun id => if id == "a" then some false else if id == "b" then some true
  else none

/-- Example deletion oracle: deleting `"a"` succeeds, anything else fails. -/
def exDel : String → Bool := fun id => id == "a"

/-- The checkpoint of the resume example in the specification. -/
def exCheckpoint : Ledger := [("A", "unknown"), ("B", "inactive"),
  ("C", "deleted")]

/-- Example ledger for the classify witnesses. -/
def exLedgerC3 : Ledger := [("a", "unknown"), ("b", "unknown"),
  ("c", "inactive")]

/-- Example ledger for the act witnesses. -/
def exLedgerC5 : Ledger := [("a", "inactive"), ("b", "inactive"),
  ("c", "inactive")]

/-- Example ledger holding a hand-edited status string. -/
def exLedgerC10 : Ledger := [("A", "unknown"), ("W", "frozen")]

/-- Concrete evaluation of `split` on an empty input (line 241 of the
source triggers with `curr = 0`, `res = []`). -/
theorem split_nil : split ([] : List String) = [[]] := by
  rw [split, splitAux]
  norm_num [BATCH_SIZE]

/-- Concrete evaluation of `split` on eleven identifiers: one full batch
is accumulated, then line 242 returns it, discarding the eleventh id. -/
theorem split_eleven :
    split ["s01", "s02", "s03", "s04", "s05", "s06", "s07", "s08", "s09",
      "s10", "s11"] =
      [["s01", "s02", "s03", "s04", "s05", "s06", "s07", "s08", "s09",
        "s10"]] := by
  rw [split, splitAux]
  norm_num [BATCH_SIZE]
  rw [splitAux]
  norm_num [BATCH_SIZE]

/-! ### The claims -/

/-- Claim C1: the claim states that for every non-empty identifier
sequence the concatenation of the batches produced by `split` equals the
input in order, with no duplicates or omissions.  The code violates this:
on the eleven-identifier input below, `split` produces a single batch of
the first ten identifiers and silently drops `"s11"` (line 242 of
src/index.js returns the accumulated batches whenever fewer than
`BATCH_SIZE` identifiers remain), so the concatenation of all batches
omits an input element.  This theorem evaluates the code at the failing
input. -/
theorem C1_split_drops_trailing :
    split ["s01", "s02", "s03", "s04", "s05", "s06", "s07", "s08", "s09",
        "s10", "s11"] =
      [["s01", "s02", "s03", "s04", "s05", "s06", "s07", "s08", "s09",
        "s10"]] ∧
    "s11" ∉ (split ["s01", "s02", "s03", "s04", "s05", "s06", "s07", "s08",
        "s09", "s10", "s11"]).flatten := by
  refine ⟨split_eleven, ?_⟩
  rw [split_eleven]
  decide

/-- Claim C2 (counterexample): the claim states `split [] = []`; in fact
`split []` returns one batch of zero elements, not an empty sequence of
batches (line 241 of src/index.js fires because `0 + 10 > 0` and the
accumulator is empty, returning `[all]`). -/
theorem C2_split_empty_counterexample : split ([] : List String) ≠ [] := by
  rw [split_nil]
  decide

/-- Claim C2 (amended): for the empty input sequence, `split` returns a
single batch containing zero elements. -/
theorem C2_split_empty_single_batch : split ([] : List String) = [[]] :=
  split_nil

/-- Claim C3: in a batch whose activity queries all succeed, an
identifier reported inactive is set to `"inactive"` in the ledger, an
identifier reported active is removed from the ledger entirely (absent
under every status), and every identifier outside the batch is
untouched. -/
theorem C3_classify_success (query : String → Option Bool)
    (batch : List String) (st : Ledger)
    (hall : ∀ i ∈ batch, (query i).isSome) :
    (∀ id ∈ batch, query id = some false →
      getStatus (filterBatch query batch st) id = some "inactive") ∧
    (∀ id ∈ batch, query id = some true →
      getStatus (filterBatch query batch st) id = none) ∧
    (∀ id, id ∉ batch →
      getStatus (filterBatch query batch st) id = getStatus st id) :=
  ⟨fun id hid hq => getStatus_filterBatch_inactive query batch st id hall hid hq,
   fun id hid hq => getStatus_filterBatch_active query batch st id hall hid hq,
   fun id hid => getStatus_filterBatch_frame query batch st id hid⟩

/-- Witness for C3 at a concrete batch and ledger. -/
theorem C3_witness :
    getStatus (filterBatch exQuery ["a", "b"] exLedgerC3) "a" =
      some "inactive" ∧
    getStatus (filterBatch exQuery ["a", "b"] exLedgerC3) "b" = none ∧
    getStatus (filterBatch exQuery ["a", "b"] exLedgerC3) "c" =
      some "inactive" := by
  have h := C3_classify_success exQuery ["a", "b"] exLedgerC3 (by decide)
  exact ⟨h.1 "a" (by decide) (by decide), h.2.1 "b" (by decide) (by decide),
    h.2.2 "c" (by decide)⟩

/-- Claim C4: if any activity query in a batch rejects, every identifier
of the batch is set to `"unknown"` (the per-identifier results are
abandoned), and identifiers outside the batch are unaffected.  The error
is swallowed inside `filterBatch` (its `catch` returns a resolved
promise), which the embedding reflects by `filterBatch` being a total
function into ledgers. -/
theorem C4_classify_batch_failure (query : String → Option Bool)
    (batch : List String) (st : Ledger)
    (hfail : ∃ i ∈ batch, query i = none) :
    (∀ id ∈ batch,
      getStatus (filterBatch query batch st) id = some "unknown") ∧
    (∀ id, id ∉ batch →
      getStatus (filterBatch query batch st) id = getStatus st id) :=
  ⟨fun id hid => getStatus_filterBatch_fail query batch st id hfail hid,
   fun id hid => getStatus_filterBatch_frame query batch st id hid⟩

/-- Witness for C4: the query for `"x"` rejects, so both `"a"` and `"x"`
become `"unknown"` while `"c"` (outside the batch) keeps its status. -/
theorem C4_witness :
    getStatus (filterBatch exQuery ["a", "x"] exLedgerC3) "a" =
      some "unknown" ∧
    getStatus (filterBatch exQuery ["a", "x"] exLedgerC3) "x" =
      some "unknown" ∧
    getStatus (filterBatch exQuery ["a", "x"] exLedgerC3) "c" =
      some "inactive" := by
  have h := C4_classify_batch_failure exQuery ["a", "x"] exLedgerC3
    ⟨"x", by decide, by decide⟩
  exact ⟨h.1 "a" (by decide), h.1 "x" (by decide), h.2 "c" (by decide)⟩

/-- Claim C5: in an act batch, every identifier whose delete request
succeeds is set to `"deleted"`; an identifier whose delete request fails
keeps its prior status (it is not marked `"deleted"`); identifiers
outside the batch are untouched.  The batch `catch` only logs, so the
failure is contained and sibling batches continue — in the embedding,
`deleteBatch` is total and the outcome for an identifier depends only on
that identifier's own request. -/
theorem C5_act_batch (del : String → Bool) (batch : List String)
    (st : Ledger) :
    (∀ id ∈ batch, del id = true →
      getStatus (deleteBatch del batch st).1 id = some "deleted") ∧
    (∀ id ∈ batch, del id = false →
      getStatus (deleteBatch del batch st).1 id = getStatus st id) ∧
    (∀ id, id ∉ batch →
      getStatus (deleteBatch del batch st).1 id = getStatus st id) := by
  refine ⟨fun id hid hd => ?_, fun id hid hd => ?_, fun id hid => ?_⟩
  · rw [getStatus_deleteBatch, if_pos ⟨hid, hd⟩]
  · rw [getStatus_deleteBatch, if_neg (fun hc => by simp [hd] at hc)]
  · rw [getStatus_deleteBatch, if_neg (fun hc => hid hc.1)]

/-- Witness for C5: deleting `"a"` succeeds and is recorded; deleting
`"b"` fails and `"b"` stays `"inactive"`; `"c"` outside the batch is
untouched. -/
theorem C5_witness :
    getStatus (deleteBatch exDel ["a", "b"] exLedgerC5).1 "a" =
      some "deleted" ∧
    getStatus (deleteBatch exDel ["a", "b"] exLedgerC5).1 "b" =
      some "inactive" ∧
    getStatus (deleteBatch exDel ["a", "b"] exLedgerC5).1 "c" =
      some "inactive" := by
  have h := C5_act_batch exDel ["a", "b"] exLedgerC5
  exact ⟨h.1 "a" (by decide) (by decide), h.2.1 "b" (by decide) (by decide),
    h.2.2 "c" (by decide)⟩

/-- Claim C6: an identifier whose status is `"deleted"` is selected
neither by the resume classification (which selects exactly the
`"unknown"` entries) nor by the act phase (which selects exactly the
`"inactive"` entries), and a full resume pass or act pass leaves its
status `"deleted"`. -/
theorem C6_deleted_monotone (query : String → Option Bool)
    (del : String → Bool) (dryRun : Bool) (st : Ledger) (id : String)
    (h : getStatus st id = some "deleted") :
    id ∉ streamIdsToBeChecked st ∧
    id ∉ streamIdsToBeDeleted st ∧
    getStatus (resume query del dryRun st).1 id = some "deleted" ∧
    getStatus (deleteStreams dryRun del st).1 id = some "deleted" := by
  have hchk : id ∉ streamIdsToBeChecked st := by
    rw [mem_streamIdsToBeChecked]
    simp [h]
  have hdel2 : ∀ st2 : Ledger, getStatus st2 id = some "deleted" →
      id ∉ streamIdsToBeDeleted st2 := by
    intro st2 h2
    rw [mem_streamIdsToBeDeleted]
    simp [h2]
  have h1 : getStatus
      (batchCheckStreamStatuses query (streamIdsToBeChecked st) st) id =
      some "deleted" := by
    rw [getStatus_batchCheck_frame query _ st id hchk]
    exact h
  have hds : ∀ st2 : Ledger, getStatus st2 id = some "deleted" →
      getStatus (deleteStreams dryRun del st2).1 id = some "deleted" := by
    intro st2 h2
    by_cases hdr : dryRun
    · simpa [deleteStreams, hdr] using h2
    · simp only [deleteStreams, hdr, Bool.false_eq_true, if_false]
      rw [getStatus_batchDeleteStreams_frame del _ st2 id (hdel2 st2 h2)]
      exact h2
  exact ⟨hchk, hdel2 st h, by simpa [resume] using hds _ h1, hds st h⟩

/-- Witness for C6 at the specification's resume example: `"C"` is
`"deleted"` in the checkpoint and stays `"deleted"` through a full
non-dry-run resume. -/
theorem C6_witness :
    getStatus exCheckpoint "C" = some "deleted" ∧
    "C" ∉ streamIdsToBeChecked exCheckpoint ∧
    getStatus (resume exQuery exDel false exCheckpoint).1 "C" =
      some "deleted" := by
  have h := C6_deleted_monotone exQuery exDel false exCheckpoint "C"
    (by decide)
  exact ⟨by decide, h.1, h.2.2.1⟩

/-- Claim C7: with dry-run active, `deleteStreams` issues no delete
request and returns the ledger unchanged, so the ledger a resume run
passes onward is exactly the one classify produced and the run's issued
delete-request list is empty. -/
theorem C7_dry_run_no_op (query : String → Option Bool)
    (del : String → Bool) (st : Ledger) :
    deleteStreams true del st = (st, []) ∧
    (resume query del true st).1 =
      batchCheckStreamStatuses query (streamIdsToBeChecked st) st ∧
    (resume query del true st).2 = [] := by
  refine ⟨rfl, ?_, ?_⟩ <;> simp [resume, deleteStreams]

/-- Claim C8: on a resume run the classification candidate set is exactly
the identifiers whose status is `"unknown"`; the classify phase leaves
every entry whose status is not `"unknown"` (in particular `"inactive"`
and `"deleted"` entries) untouched; and the non-dry-run act phase is
applied via `batchDeleteStreams` to exactly the identifiers whose status
is `"inactive"` after classification. -/
theorem C8_resume_selection (query : String → Option Bool)
    (del : String → Bool) (st : Ledger) :
    (∀ id, id ∈ streamIdsToBeChecked st ↔
      getStatus st id = some "unknown") ∧
    (∀ id v, getStatus st id = some v → v ≠ "unknown" →
      getStatus
        (batchCheckStreamStatuses query (streamIdsToBeChecked st) st) id =
        some v) ∧
    (∀ id, id ∈ streamIdsToBeDeleted
        (batchCheckStreamStatuses query (streamIdsToBeChecked st) st) ↔
      getStatus
        (batchCheckStreamStatuses query (streamIdsToBeChecked st) st) id =
        some "inactive") ∧
    (resume query del false st).1 =
      (batchDeleteStreams del
        (streamIdsToBeDeleted
          (batchCheckStreamStatuses query (streamIdsToBeChecked st) st))
        (batchCheckStreamStatuses query (streamIdsToBeChecked st) st)).1 := by
  refine ⟨fun id => mem_streamIdsToBeChecked st id, fun id v hv hne => ?_,
    fun id => mem_streamIdsToBeDeleted _ id, ?_⟩
  · rw [getStatus_batchCheck_frame]
    · exact hv
    · rw [mem_streamIdsToBeChecked]
      simp [hv, hne]
  · simp [resume, deleteStreams]

/-- Witness for C8 at the specification's checkpoint example: `"A"` is
the only classification candidate, and `"B"` (inactive) is untouched by
the classify phase. -/
theorem C8_witness :
    "A" ∈ streamIdsToBeChecked exCheckpoint ∧
    "B" ∉ streamIdsToBeChecked exCheckpoint ∧
    getStatus (batchCheckStreamStatuses exQuery
      (streamIdsToBeChecked exCheckpoint) exCheckpoint) "B" =
      some "inactive" := by
  have h := C8_resume_selection exQuery exDel exCheckpoint
  refine ⟨(h.1 "A").mpr (by decide), ?_, h.2.1 "B" "inactive" (by decide)
    (by decide)⟩
  intro hmem
  exact absurd ((h.1 "B").mp hmem) (by decide)

/-- Claim C9: for a ledger with pairwise-distinct keys (the only ledgers
a JavaScript object can represent), saving it to the checkpoint and
loading the checkpoint back yields the same ledger, and writing the same
ledger twice produces byte-identical checkpoint content (serialisation is
a function of the ledger alone). -/
theorem C9_checkpoint_roundtrip (l : Ledger) (hnd : (keys l).Nodup) :
    getStreamStatus (storeStreamStatus l) = some l ∧
    storeStreamStatus l = storeStreamStatus l :=
  ⟨getStreamStatus_store l, rfl⟩

/-- Witness for C9 on a two-entry ledger. -/
theorem C9_witness :
    (keys [("a", "inactive"), ("b", "deleted")]).Nodup ∧
    getStreamStatus
      (storeStreamStatus [("a", "inactive"), ("b", "deleted")]) =
      some [("a", "inactive"), ("b", "deleted")] :=
  ⟨by decide,
   (C9_checkpoint_roundtrip [("a", "inactive"), ("b", "deleted")]
     (by decide)).1⟩

/-- Claim C10: an entry whose status string is none of `"unknown"`,
`"inactive"`, `"deleted"` is preserved unchanged through a full resume
run (it is selected neither for re-classification nor for deletion), yet
its identifier appears in none of the three groups of the final
report. -/
theorem C10_foreign_status (query : String → Option Bool)
    (del : String → Bool) (dryRun : Bool) (st : Ledger) (id v : String)
    (hnd : (keys st).Nodup) (hv : getStatus st id = some v)
    (h1 : v ≠ "unknown") (h2 : v ≠ "inactive") (h3 : v ≠ "deleted") :
    getStatus (resume query del dryRun st).1 id = some v ∧
    id ∉ (report (resume query del dryRun st).1).unknown ∧
    id ∉ (report (resume query del dryRun st).1).inactive ∧
    id ∉ (report (resume query del dryRun st).1).deleted := by
  have hchk : id ∉ streamIdsToBeChecked st := by
    rw [mem_streamIdsToBeChecked]
    simp [hv, h1]
  have hv1 : getStatus
      (batchCheckStreamStatuses query (streamIdsToBeChecked st) st) id =
      some v := by
    rw [getStatus_batchCheck_frame query _ st id hchk]
    exact hv
  have hfinal : getStatus (resume query del dryRun st).1 id = some v := by
    simp only [resume]
    by_cases hdr : dryRun
    · simpa [deleteStreams, hdr] using hv1
    · simp only [deleteStreams, hdr, Bool.false_eq_true, if_false]
      rw [getStatus_batchDeleteStreams_frame]
      · exact hv1
      · rw [mem_streamIdsToBeDeleted]
        simp [hv1, h2]
  have hndf : (keys (resume query del dryRun st).1).Nodup :=
    nodup_keys_resume query del dryRun st hnd
  refine ⟨hfinal, ?_, ?_, ?_⟩
  · rw [mem_report_unknown _ hndf]
    simp [hfinal, h1]
  · rw [mem_report_inactive _ hndf]
    simp [hfinal, h2]
  · rw [mem_report_deleted _ hndf]
    simp [hfinal, h3]

/-- Witness for C10: a hand-edited status `"frozen"` survives a full
non-dry-run resume and is absent from every report group. -/
theorem C10_witness :
    getStatus exLedgerC10 "W" = some "frozen" ∧
    getStatus (resume exQuery exDel false exLedgerC10).1 "W" =
      some "frozen" ∧
    "W" ∉ (report (resume exQuery exDel false exLedgerC10).1).unknown := by
  have h := C10_foreign_status exQuery exDel false exLedgerC10 "W" "frozen"
    (by decide) (by decide) (by decide) (by decide) (by decide)
  exact ⟨by decide, h.1, h.2.1⟩

end StreamDeletion
